import Mathlib

/-!
Verification of the `ScaleProfile` core of the DGtal repository
(`src/DGtal/geometry/helpers/ScaleProfile.h`).  The header declares the
class interface and documents its behaviour; the inline implementation file
(`ScaleProfile.ih`) is not part of the sources, so the operations are
modelled from the specification and the header documentation, faithful to
their words.  Real samples and scales are modelled as rationals; the
natural logarithm used to build the log-log profile is abstracted as an
arbitrary map `lg : ℚ → ℚ`, so every statement below holds in particular
for the logarithm.
-/

namespace DGtal

/-- Modelled from the spec: the external `Statistic<float>` accumulator
(`DGtal/math/Statistic.h` is absent from the sources).  Capability set per
the spec: `add(value)`, `merge(other)`, `mean()`, `max()`, `min()`,
`median()`, `count()` and a retention flag controlling whether raw samples
are kept (needed only for `median()`); once retention stops the median is
computed from the retained samples and cached. -/
structure Statistic where
  count : ℕ
  sum : ℚ
  minv : ℚ
  maxv : ℚ
  retainRaw : Bool
  samples : List ℚ
  cachedMedian : ℚ
deriving DecidableEq

/-- A fresh accumulator with the given retention flag. -/
def Statistic.empty (store : Bool) : Statistic :=
  ⟨0, 0, 0, 0, store, [], 0⟩

/-- Modelled from the spec: `add(value)` updates the running aggregates and
retains the raw sample exactly when the retention flag is set. -/
def Statistic.add (s : Statistic) (v : ℚ) : Statistic :=
  { count := s.count + 1,
    sum := s.sum + v,
    minv := if s.count = 0 then v else min s.minv v,
    maxv := if s.count = 0 then v else max s.maxv v,
    retainRaw := s.retainRaw,
    samples := if s.retainRaw then s.samples ++ [v] else s.samples,
    cachedMedian := s.cachedMedian }

/-- Modelled from the spec: `merge(other)` adds the samples of an
externally built accumulator into this one. -/
def Statistic.merge (s t : Statistic) : Statistic :=
  { count := s.count + t.count,
    sum := s.sum + t.sum,
    minv := if s.count = 0 then t.minv else if t.count = 0 then s.minv else min s.minv t.minv,
    maxv := if s.count = 0 then t.maxv else if t.count = 0 then s.maxv else max s.maxv t.maxv,
    retainRaw := s.retainRaw,
    samples := if s.retainRaw then s.samples ++ t.samples else s.samples,
    cachedMedian := s.cachedMedian }

/-- The median of a list of rationals: middle element of the sorted list. -/
def medianOfList (l : List ℚ) : ℚ :=
  (List.insertionSort (fun a b => a ≤ b) l).getD ((l.length - 1) / 2) 0

/-- Modelled from the spec: `median()` is computed from the retained raw
samples while retention is on, and is the cached value afterwards. -/
def Statistic.median (s : Statistic) : ℚ :=
  if s.retainRaw then medianOfList s.samples else s.cachedMedian

/-- Modelled from the spec: the per-accumulator effect of
`stopStatsSaving()` — compute the median from the retained raw samples,
cache it, release the raw-sample storage and turn retention off; a no-op
when retention is already off. -/
def Statistic.terminate (s : Statistic) : Statistic :=
  if s.retainRaw then
    { s with cachedMedian := medianOfList s.samples, samples := [], retainRaw := false }
  else s

/-- The running mean of an accumulator. -/
def Statistic.mean (s : Statistic) : ℚ := s.sum / (s.count : ℚ)

/-- The `ProfileComputingType` enumeration of `ScaleProfile.h`
(`MEAN, MAX, MIN, MEDIAN`). -/
inductive ProfileComputingType where
  | MEAN
  | MAX
  | MIN
  | MEDIAN
deriving DecidableEq

/-- Modelled from the spec: `aggregate` selects which accumulator query
produces a profile value, according to the configured mode. -/
def aggregate : ProfileComputingType → Statistic → ℚ
  | .MEAN, s => s.mean
  | .MAX, s => s.maxv
  | .MIN, s => s.minv
  | .MEDIAN, s => s.median

/-- The `ScaleProfile` aggregate root: the ordered scale sequence
(`m_scales`), the index-aligned accumulators (`m_stats`), the profile
computing mode (`m_profileDef`), the retention flag (`m_storeValInStats`)
and the validity flag (null pointers in the C++ class are modelled by
`valid = false`). -/
structure ScaleProfile where
  scales : List ℚ
  stats : List Statistic
  profileDef : ProfileComputingType
  storeValInStats : Bool
  valid : Bool
deriving DecidableEq

/-- A freshly constructed (invalid) profile with the given mode. -/
def ScaleProfile.mkEmpty (m : ProfileComputingType) : ScaleProfile :=
  ⟨[], [], m, false, false⟩

/-- `isValid()` of `ScaleProfile.h`. -/
def ScaleProfile.isValid (p : ScaleProfile) : Bool := p.valid

/-- A valid profile per the spec: successfully initialized with at least
one scale and index-aligned accumulators. -/
def ScaleProfile.WellFormed (p : ScaleProfile) : Prop :=
  p.valid = true ∧ p.scales.length = p.stats.length ∧ 1 ≤ p.scales.length

instance (p : ScaleProfile) : Decidable p.WellFormed := by
  unfold ScaleProfile.WellFormed; infer_instance

/-- The precondition-violation conditions of the spec's error model. -/
inductive PError where
  | InvalidState
  | IndexOutOfRange
  | InvalidArgument
deriving DecidableEq

/-- The scale sequence `(1, 2, ..., n)` used by `init(nb)`. -/
def scaleSeq (n : ℕ) : List ℚ := (List.range n).map (fun k => ((k + 1 : ℕ) : ℚ))

/-- Modelled from the spec: the iterator-pair initializer — requires a
non-empty scale sequence, allocates one fresh accumulator per scale with
the given retention flag, and marks the object valid. -/
def ScaleProfile.initScalesE (p : ScaleProfile) (l : List ℚ) (store : Bool) :
    Except PError ScaleProfile :=
  if l.isEmpty then .error .InvalidArgument
  else .ok { scales := l, stats := List.replicate l.length (Statistic.empty store),
             profileDef := p.profileDef, storeValInStats := store, valid := true }

/-- Modelled from the spec: `init(nb, storeValsInStats)` is sugar for the
sequence `1..nb`. -/
def ScaleProfile.initNatE (p : ScaleProfile) (n : ℕ) (store : Bool) :
    Except PError ScaleProfile :=
  p.initScalesE (scaleSeq n) store

/-- Default accumulator used to state out-of-range lookups. -/
def statDefault : Statistic := Statistic.empty false

/-- Modelled from the spec: `addValue(idx, value)` requires a valid object
and `idx < N`, and routes `value` into `stats[idx].add(value)`. -/
def ScaleProfile.addValueE (p : ScaleProfile) (idx : ℕ) (v : ℚ) :
    Except PError ScaleProfile :=
  if p.valid = false then .error .InvalidState
  else if p.scales.length ≤ idx then .error .IndexOutOfRange
  else .ok { p with stats := p.stats.set idx ((p.stats.getD idx statDefault).add v) }

/-- Modelled from the spec: `addStatistic(idx, stat)` merges an externally
built accumulator into `stats[idx]`, same index contract as `addValue`. -/
def ScaleProfile.addStatisticE (p : ScaleProfile) (idx : ℕ) (t : Statistic) :
    Except PError ScaleProfile :=
  if p.valid = false then .error .InvalidState
  else if p.scales.length ≤ idx then .error .IndexOutOfRange
  else .ok { p with stats := p.stats.set idx ((p.stats.getD idx statDefault).merge t) }

/-- Modelled from the spec: `stopStatsSaving()` freezes the median of
every accumulator and releases the raw-sample storage. -/
def ScaleProfile.stopStatsSaving (p : ScaleProfile) : ScaleProfile :=
  { p with stats := p.stats.map Statistic.terminate, storeValInStats := false }

/-- Modelled from the spec: `clear()` releases the sequences and returns
the object to the invalid state. -/
def ScaleProfile.clear (p : ScaleProfile) : ScaleProfile :=
  ⟨[], [], p.profileDef, false, false⟩

/-- `setProfileDef` of `ScaleProfile.h`. -/
def ScaleProfile.setProfileDef (p : ScaleProfile) (m : ProfileComputingType) :
    ScaleProfile :=
  { p with profileDef := m }

/-- The x-values of the profile: `lg` applied to each scale. -/
def profileX (lg : ℚ → ℚ) (p : ScaleProfile) : List ℚ := p.scales.map lg

/-- The y-values of the profile: `lg` of the selected aggregate of each
accumulator. -/
def profileY (lg : ℚ → ℚ) (p : ScaleProfile) : List ℚ :=
  p.stats.map (fun s => lg (aggregate p.profileDef s))

/-- Modelled from the spec: `getProfile(x, y)` requires a valid object and
appends (does not clear first) the profile points to the caller's two
vectors, in scale-index order. -/
def ScaleProfile.getProfileE (p : ScaleProfile) (lg : ℚ → ℚ) (xs ys : List ℚ) :
    Except PError (List ℚ × List ℚ) :=
  if p.valid = false then .error .InvalidState
  else .ok (xs ++ profileX lg p, ys ++ profileY lg p)

/-- The finite-difference slopes between consecutive profile points:
`slope[i] = (y[i+1] - y[i]) / (x[i+1] - x[i])`. -/
def slopesOf (x y : List ℚ) : List ℚ :=
  (List.range (x.length - 1)).map
    (fun i => (y.getD (i + 1) 0 - y.getD i 0) / (x.getD (i + 1) 0 - x.getD i 0))

/-- Whether a slope lies in the admissible band (thresholds inclusive). -/
def slopeOk (maxS minS s : ℚ) : Bool := decide (minS ≤ s) && decide (s ≤ maxS)

/-- Number of consecutive indices starting at `i` (within a window of `m`
remaining indices) on which the predicate holds. -/
def leadLen (p : ℕ → Bool) : ℕ → ℕ → ℕ
  | _, 0 => 0
  | i, m + 1 => if p i then leadLen p (i + 1) m + 1 else 0

/-- Left-to-right scanner collecting the maximal runs of the predicate:
`m` is the number of indices still to scan, `i` the next index, and the
third argument the start of the currently open run, if any. -/
def runsAux (p : ℕ → Bool) : ℕ → ℕ → Option ℕ → List (ℕ × ℕ)
  | 0, _, none => []
  | 0, i, some s => [(s, i - 1)]
  | m + 1, i, none =>
      if p i then runsAux p m (i + 1) (some i) else runsAux p m (i + 1) none
  | m + 1, i, some s =>
      if p i then runsAux p m (i + 1) (some s)
      else (s, i - 1) :: runsAux p m (i + 1) none

/-- The maximal runs of a predicate on `[0, n)`, scanned left to right. -/
def runs (p : ℕ → Bool) (n : ℕ) : List (ℕ × ℕ) := runsAux p n 0 none

/-- Whether slope `i` of the profile `(x, y)` lies in the admissible band. -/
def slopeOkAt (x y : List ℚ) (maxS minS : ℚ) (i : ℕ) : Bool :=
  slopeOk maxS minS ((slopesOf x y).getD i 0)

/-- Modelled from the spec: the Slope Analyzer — group the maximal
consecutive runs of slope indices whose slope lies in
`[min_slope, max_slope]` and keep those of width at least `min_width`. -/
def meaningfulScalesOf (x y : List ℚ) (min_width : ℕ) (maxS minS : ℚ) :
    List (ℕ × ℕ) :=
  (runs (slopeOkAt x y maxS minS) (slopesOf x y).length).filter
    (fun ab => decide (min_width ≤ ab.2 + 1 - ab.1))

/-- Modelled from the spec: `meaningfulScales` of `ScaleProfile.h` on the
log-log profile built with `lg`. -/
def ScaleProfile.meaningfulScales (p : ScaleProfile) (lg : ℚ → ℚ)
    (min_width : ℕ) (max_slope min_slope : ℚ) : List (ℕ × ℕ) :=
  meaningfulScalesOf (profileX lg p) (profileY lg p) min_width max_slope min_slope

/-- The C++ conversion of a non-negative scale value to the declared
return type `uint` of `noiseLevel`: truncation toward zero. -/
def toUint (q : ℚ) : ℕ := (Int.floor q).toNat

/-- Modelled from the spec: `noiseLevel` — the scale value at the start
index of the first meaningful interval, converted to the declared return
type `uint`, or the sentinel `0` when no interval exists. -/
def ScaleProfile.noiseLevel (p : ScaleProfile) (lg : ℚ → ℚ)
    (min_width : ℕ) (max_slope min_slope : ℚ) : ℕ :=
  match p.meaningfulScales lg min_width max_slope min_slope with
  | [] => 0
  | (a, _) :: _ => toUint (p.scales.getD a 0)

/-- Modelled from the spec: the lower-bound filter of
`lowerBoundedNoiseLevel` — every profile value spanned by the interval
must lie strictly above the power-law floor anchored at scale `1` with
value `lb1` and decay rate `lbslope`, compared in log-log space. -/
def floorOkInterval (lg : ℚ → ℚ) (x y : List ℚ) (lb1 lbslope : ℚ)
    (ab : ℕ × ℕ) : Bool :=
  (List.range (ab.2 + 2 - ab.1)).all
    (fun d => decide (lg lb1 + lbslope * x.getD (ab.1 + d) 0 < y.getD (ab.1 + d) 0))

/-- Modelled from the spec: `lowerBoundedNoiseLevel` — like `noiseLevel`
but restricted to the meaningful intervals surviving the lower-bound
filter. -/
def ScaleProfile.lowerBoundedNoiseLevel (p : ScaleProfile) (lg : ℚ → ℚ)
    (min_width : ℕ) (max_slope min_slope lb1 lbslope : ℚ) : ℕ :=
  match (p.meaningfulScales lg min_width max_slope min_slope).filter
      (floorOkInterval lg (profileX lg p) (profileY lg p) lb1 lbslope) with
  | [] => 0
  | (a, _) :: _ => toUint (p.scales.getD a 0)

/-- The ordinary least-squares slope of `y` on `x` over a list of points,
in the one-pass sums form `(n·Σxy − Σx·Σy) / (n·Σx² − (Σx)²)`. -/
def olsSlope (pts : List (ℚ × ℚ)) : ℚ :=
  ((pts.length : ℚ) * (pts.map (fun q => q.1 * q.2)).sum
      - (pts.map Prod.fst).sum * (pts.map Prod.snd).sum) /
    ((pts.length : ℚ) * (pts.map (fun q => q.1 * q.1)).sum
      - (pts.map Prod.fst).sum * (pts.map Prod.fst).sum)

/-- The ordinary least-squares slope in covariance form:
`Σ(x−x̄)(y−ȳ) / Σ(x−x̄)²`. -/
def olsSlopeCov (pts : List (ℚ × ℚ)) : ℚ :=
  (pts.map (fun q => (q.1 - (pts.map Prod.fst).sum / (pts.length : ℚ))
      * (q.2 - (pts.map Prod.snd).sum / (pts.length : ℚ)))).sum /
    (pts.map (fun q => (q.1 - (pts.map Prod.fst).sum / (pts.length : ℚ))
      * (q.1 - (pts.map Prod.fst).sum / (pts.length : ℚ)))).sum

/-- Modelled from the spec: `getSlopeFromMeaningfulScales` — regression
slope over the points of the first meaningful interval of width at least
`min_size` and `true`, or over all profile points and `false` when no such
interval exists. -/
def ScaleProfile.getSlopeFromMeaningfulScales (p : ScaleProfile) (lg : ℚ → ℚ)
    (max_slope min_slope : ℚ) (min_size : ℕ) : Bool × ℚ :=
  match meaningfulScalesOf (profileX lg p) (profileY lg p) min_size max_slope min_slope with
  | [] => (false, olsSlope ((profileX lg p).zip (profileY lg p)))
  | (a, b) :: _ =>
      (true, olsSlope ((((profileX lg p).zip (profileY lg p)).drop a).take (b + 2 - a)))

/-- Modelled from the spec: the `meaningfulScales` query on an
uninitialized or cleared object fails with `InvalidState` (spec error
model); on a valid object it delegates to the analysis core. -/
def ScaleProfile.meaningfulScalesE (p : ScaleProfile) (lg : ℚ → ℚ)
    (min_width : ℕ) (max_slope min_slope : ℚ) : Except PError (List (ℕ × ℕ)) :=
  if p.valid = false then .error .InvalidState
  else .ok (p.meaningfulScales lg min_width max_slope min_slope)

/-- Modelled from the spec: the `getSlopeFromMeaningfulScales` query on an
uninitialized or cleared object fails with `InvalidState`; on a valid
object it delegates to the regression core. -/
def ScaleProfile.getSlopeFromMeaningfulScalesE (p : ScaleProfile) (lg : ℚ → ℚ)
    (max_slope min_slope : ℚ) (min_size : ℕ) : Except PError (Bool × ℚ) :=
  if p.valid = false then .error .InvalidState
  else .ok (p.getSlopeFromMeaningfulScales lg max_slope min_slope min_size)

/-- Modelled from the spec: the `noiseLevel` query on an uninitialized or
cleared object fails with `InvalidState`; on a valid object it delegates
to the noise-level core. -/
def ScaleProfile.noiseLevelE (p : ScaleProfile) (lg : ℚ → ℚ)
    (min_width : ℕ) (max_slope min_slope : ℚ) : Except PError ℕ :=
  if p.valid = false then .error .InvalidState
  else .ok (p.noiseLevel lg min_width max_slope min_slope)

/-- Modelled from the spec: the `lowerBoundedNoiseLevel` query on an
uninitialized or cleared object fails with `InvalidState`; on a valid
object it delegates to the lower-bounded noise-level core. -/
def ScaleProfile.lowerBoundedNoiseLevelE (p : ScaleProfile) (lg : ℚ → ℚ)
    (min_width : ℕ) (max_slope min_slope lb1 lbslope : ℚ) : Except PError ℕ :=
  if p.valid = false then .error .InvalidState
  else .ok (p.lowerBoundedNoiseLevel lg min_width max_slope min_slope lb1 lbslope)

/-- The serialization hook of `ScaleProfile.h`: `serialize` persists
exactly `m_scales` and `m_stats`. -/
def serializeBlob (p : ScaleProfile) : List ℚ × List Statistic :=
  (p.scales, p.stats)

/-- Modelled from the spec: deserialization restores the two persisted
sequences into the receiving object. -/
def deserializeBlob (p : ScaleProfile) (blob : List ℚ × List Statistic) :
    ScaleProfile :=
  { p with scales := blob.1, stats := blob.2 }

/-- The public mutating operations of the class, for reachability
statements. -/
inductive Op where
  | initSeq (l : List ℚ) (store : Bool)
  | initNat (n : ℕ) (store : Bool)
  | addValue (idx : ℕ) (v : ℚ)
  | addStat (idx : ℕ) (t : Statistic)
  | stopSaving
  | clearOp
  | setDef (m : ProfileComputingType)

/-- A failed (precondition-violating) call leaves the object unchanged. -/
def recover (p : ScaleProfile) : Except PError ScaleProfile → ScaleProfile
  | .ok q => q
  | .error _ => p

/-- One public API call. -/
def applyOp (p : ScaleProfile) : Op → ScaleProfile
  | .initSeq l b => recover p (p.initScalesE l b)
  | .initNat n b => recover p (p.initNatE n b)
  | .addValue i v => recover p (p.addValueE i v)
  | .addStat i t => recover p (p.addStatisticE i t)
  | .stopSaving => p.stopStatsSaving
  | .clearOp => p.clear
  | .setDef m => p.setProfileDef m

/-- A sequence of public API calls. -/
def runOps (p : ScaleProfile) (ops : List Op) : ScaleProfile :=
  ops.foldl applyOp p

/-- The identity map on ℚ, a concrete instance of the abstract logarithm
parameter used to evaluate the model on concrete profiles. -/
def lgId : ℚ → ℚ := fun q => q

/-- A one-sample accumulator holding value `v`. -/
def oneStat (v : ℚ) : Statistic := (Statistic.empty false).add v

/-- A concrete valid profile whose first scale is the non-integral 1/2. -/
def Pfrac : ScaleProfile := ⟨[1/2, 1], [oneStat 1, oneStat (3/4)], .MEAN, false, true⟩

/-- A concrete valid profile with the integer scales 1, 2. -/
def Punit : ScaleProfile := ⟨[1, 2], [oneStat 1, oneStat (3/4)], .MEAN, false, true⟩

/-- A concrete valid profile with scales 3/2 and 3. -/
def Pint : ScaleProfile := ⟨[3/2, 3], [oneStat 1, oneStat (1/2)], .MEAN, false, true⟩

/-- A concrete valid profile with scales 3/4 and 3/2. -/
def Phalf : ScaleProfile := ⟨[3/4, 3/2], [oneStat 1, oneStat (3/4)], .MEAN, false, true⟩

/-- A concrete valid profile with raw-sample retention turned on. -/
def Pstore : ScaleProfile :=
  ⟨[1], [((Statistic.empty true).add 3).add 1], .MEAN, true, true⟩

end DGtal

namespace DGtal

theorem leadLen_le (p : ℕ → Bool) : ∀ m i, leadLen p i m ≤ m := by
  intro m
  induction m with
  | zero => intro i; simp [leadLen]
  | succ m ih =>
    intro i
    by_cases h : p i
    · simp only [leadLen, h, if_true]
      exact Nat.succ_le_succ (ih (i + 1))
    · simp only [leadLen, h, if_false]
      exact Nat.zero_le _

theorem leadLen_true (p : ℕ → Bool) :
    ∀ m i k, k < leadLen p i m → p (i + k) = true := by
  intro m
  induction m with
  | zero => intro i k hk; simp [leadLen] at hk
  | succ m ih =>
    intro i k hk
    by_cases h : p i
    · simp only [leadLen, h, if_true] at hk
      cases k with
      | zero => simpa using h
      | succ k =>
        have := ih (i + 1) k (by omega)
        have harith : i + 1 + k = i + (k + 1) := by omega
        rwa [harith] at this
    · simp [leadLen, h] at hk

theorem leadLen_end (p : ℕ → Bool) :
    ∀ m i, leadLen p i m = m ∨ p (i + leadLen p i m) = false := by
  intro m
  induction m with
  | zero => intro i; exact Or.inl rfl
  | succ m ih =>
    intro i
    by_cases h : p i
    · simp only [leadLen, h, if_true]
      rcases ih (i + 1) with he | hf
      · exact Or.inl (by omega)
      · refine Or.inr ?_
        have harith : i + (leadLen p (i + 1) m + 1) = i + 1 + leadLen p (i + 1) m := by omega
        rwa [harith]
    · simp only [leadLen, h, if_false]
      exact Or.inr (by simpa using h)

theorem runsAux_some_decomp (p : ℕ → Bool) :
    ∀ m i s, runsAux p m i (some s) =
      (s, i + leadLen p i m - 1) ::
        runsAux p (m - leadLen p i m - 1) (i + leadLen p i m + 1) none := by
  intro m
  induction m with
  | zero =>
    intro i s
    simp [runsAux, leadLen]
  | succ m ih =>
    intro i s
    by_cases h : p i
    · simp only [runsAux, leadLen, h, if_true]
      rw [ih (i + 1) s]
      have h1 : i + 1 + leadLen p (i + 1) m - 1 = i + (leadLen p (i + 1) m + 1) - 1 := by omega
      have h2 : m - leadLen p (i + 1) m - 1 = m + 1 - (leadLen p (i + 1) m + 1) - 1 := by omega
      have h3 : i + 1 + leadLen p (i + 1) m + 1 = i + (leadLen p (i + 1) m + 1) + 1 := by omega
      rw [h1, h2, h3]
    · simp only [runsAux, leadLen, h, if_false]
      norm_num

end DGtal

namespace DGtal

theorem runsAux_none_mem (p : ℕ → Bool) :
    ∀ m i a b, ((a, b) ∈ runsAux p m i none) ↔
      (i ≤ a ∧ a ≤ b ∧ b < i + m ∧ (∀ k, a ≤ k → k ≤ b → p k = true) ∧
       (a = i ∨ p (a - 1) = false) ∧ (b + 1 = i + m ∨ p (b + 1) = false)) := by
  intro m
  induction m using Nat.strong_induction_on with
  | _ m ih =>
    cases m with
    | zero =>
      intro i a b
      simp only [runsAux, List.not_mem_nil, false_iff]
      rintro ⟨h1, h2, h3, -, -, -⟩
      omega
    | succ m' =>
      intro i a b
      by_cases hpi : p i = true
      case neg =>
        have hpif : p i = false := by simpa using hpi
        have hrw : runsAux p (m' + 1) i none = runsAux p m' (i + 1) none := by
          simp [runsAux, hpif]
        rw [hrw, ih m' (by omega) (i + 1) a b]
        constructor
        · rintro ⟨h1, h2, h3, h4, h5, h6⟩
          refine ⟨by omega, h2, by omega, h4, ?_, ?_⟩
          · rcases h5 with h5 | h5
            · right; rw [h5, Nat.add_sub_cancel]; exact hpif
            · right; exact h5
          · rcases h6 with h6 | h6
            · left; omega
            · right; exact h6
        · rintro ⟨h1, h2, h3, h4, h5, h6⟩
          have hai : i + 1 ≤ a := by
            by_contra hcon
            have hae : a = i := by omega
            have hpt := h4 i (by omega) (by omega)
            rw [hpt] at hpif
            exact Bool.noConfusion hpif
          refine ⟨hai, h2, by omega, h4, ?_, ?_⟩
          · rcases h5 with h5 | h5
            · exfalso; omega
            · right; exact h5
          · rcases h6 with h6 | h6
            · left; omega
            · right; exact h6
      case pos =>
        have hrw : runsAux p (m' + 1) i none = runsAux p m' (i + 1) (some i) := by
          simp [runsAux, hpi]
        rw [hrw, runsAux_some_decomp p m' (i + 1) i]
        have hLle : leadLen p (i + 1) m' ≤ m' := leadLen_le p m' (i + 1)
        set L := leadLen p (i + 1) m' with hLdef
        have hLtrue : ∀ k, k < L → p (i + 1 + k) = true :=
          fun k hk => leadLen_true p m' (i + 1) k hk
        have hLend : L = m' ∨ p (i + 1 + L) = false := leadLen_end p m' (i + 1)
        have hrun : ∀ k, i ≤ k → k ≤ i + L → p k = true := by
          intro k hk1 hk2
          rcases Nat.eq_or_lt_of_le hk1 with he | hlt
          · rw [← he]; exact hpi
          · have h := hLtrue (k - i - 1) (by omega)
            have harith : i + 1 + (k - i - 1) = k := by omega
            rwa [harith] at h
        have hhead : i + 1 + L - 1 = i + L := by omega
        rw [List.mem_cons, ih (m' - L - 1) (by omega) (i + 1 + L + 1) a b, hhead,
          Prod.mk.injEq]
        constructor
        · rintro (⟨ha, hb⟩ | ⟨h1, h2, h3, h4, h5, h6⟩)
          · refine ⟨by omega, by omega, by omega, ?_, Or.inl ha, ?_⟩
            · intro k hk1 hk2
              exact hrun k (by omega) (by omega)
            · rcases hLend with he | hf
              · left; omega
              · right
                have harith : b + 1 = i + 1 + L := by omega
                rw [harith]; exact hf
          · have hLlt : L < m' := by omega
            refine ⟨by omega, h2, by omega, h4, ?_, ?_⟩
            · right
              rcases h5 with h5 | h5
              · rw [h5, Nat.add_sub_cancel]
                rcases hLend with he | hf
                · exfalso; omega
                · exact hf
              · exact h5
            · rcases h6 with h6 | h6
              · left; omega
              · right; exact h6
        · rintro ⟨h1, h2, h3, h4, h5, h6⟩
          by_cases hae : a = i
          · refine Or.inl ⟨hae, ?_⟩
            have hble : b ≤ i + L := by
              by_contra hcon
              push_neg at hcon
              have hpt : p (i + 1 + L) = true := h4 (i + 1 + L) (by omega) (by omega)
              rcases hLend with he | hf
              · omega
              · rw [hpt] at hf; exact Bool.noConfusion hf
            have hbge : i + L ≤ b := by
              by_contra hcon
              push_neg at hcon
              rcases h6 with h6 | h6
              · omega
              · have hpt : p (b + 1) = true := hrun (b + 1) (by omega) (by omega)
                rw [hpt] at h6; exact Bool.noConfusion h6
            omega
          · refine Or.inr ?_
            have hpaf : p (a - 1) = false := by
              rcases h5 with h5 | h5
              · exact absurd h5 hae
              · exact h5
            have hage : i + 1 + L + 1 ≤ a := by
              by_contra hcon
              push_neg at hcon
              have hpt : p (a - 1) = true := hrun (a - 1) (by omega) (by omega)
              rw [hpt] at hpaf; exact Bool.noConfusion hpaf
            have hLlt : L < m' := by omega
            refine ⟨hage, h2, by omega, h4, Or.inr hpaf, ?_⟩
            rcases h6 with h6 | h6
            · left; omega
            · right; exact h6

end DGtal

namespace DGtal

theorem runsAux_none_pairwise (p : ℕ → Bool) :
    ∀ m i, List.Pairwise (fun u v : ℕ × ℕ => u.2 + 1 < v.1) (runsAux p m i none) := by
  intro m
  induction m using Nat.strong_induction_on with
  | _ m ih =>
    cases m with
    | zero => intro i; simp [runsAux]
    | succ m' =>
      intro i
      by_cases hpi : p i = true
      · have hrw : runsAux p (m' + 1) i none = runsAux p m' (i + 1) (some i) := by
          simp [runsAux, hpi]
        rw [hrw, runsAux_some_decomp p m' (i + 1) i]
        set L := leadLen p (i + 1) m'
        rw [List.pairwise_cons]
        constructor
        · rintro ⟨u1, u2⟩ hv
          obtain ⟨hv1, -, -, -, -, -⟩ :=
            (runsAux_none_mem p (m' - L - 1) (i + 1 + L + 1) u1 u2).mp hv
          show i + 1 + L - 1 + 1 < u1
          omega
        · exact ih (m' - L - 1) (by omega) (i + 1 + L + 1)
      · have hpif : p i = false := by simpa using hpi
        have hrw : runsAux p (m' + 1) i none = runsAux p m' (i + 1) none := by
          simp [runsAux, hpif]
        rw [hrw]
        exact ih m' (by omega) (i + 1)

/-- C2: for every profile, `meaningfulScales` returns exactly the maximal
consecutive runs `[a, b]` of slope indices whose slope lies in
`[min_slope, max_slope]` (thresholds inclusive) and whose width
`b - a + 1` is at least `min_width`, as a list of `(startIndex, endIndex)`
pairs that is pairwise non-overlapping and ordered by ascending start
index. -/
theorem meaningfulScales_maximal_runs (lg : ℚ → ℚ) (p : ScaleProfile)
    (min_width : ℕ) (max_slope min_slope : ℚ) :
    (∀ a b : ℕ, ((a, b) ∈ p.meaningfulScales lg min_width max_slope min_slope) ↔
      (a ≤ b ∧ b < (slopesOf (profileX lg p) (profileY lg p)).length ∧
       (∀ k, a ≤ k → k ≤ b →
         slopeOkAt (profileX lg p) (profileY lg p) max_slope min_slope k = true) ∧
       (a = 0 ∨
         slopeOkAt (profileX lg p) (profileY lg p) max_slope min_slope (a - 1) = false) ∧
       (b + 1 = (slopesOf (profileX lg p) (profileY lg p)).length ∨
         slopeOkAt (profileX lg p) (profileY lg p) max_slope min_slope (b + 1) = false) ∧
       min_width ≤ b + 1 - a))
    ∧ List.Pairwise (fun u v : ℕ × ℕ => u.2 < v.1)
        (p.meaningfulScales lg min_width max_slope min_slope) := by
  constructor
  · intro a b
    unfold ScaleProfile.meaningfulScales meaningfulScalesOf runs
    rw [List.mem_filter, runsAux_none_mem]
    simp only [decide_eq_true_eq]
    constructor
    · rintro ⟨⟨-, h1, h2, h3, h4, h5⟩, hw⟩
      refine ⟨h1, by omega, h3, h4, ?_, hw⟩
      rcases h5 with h5 | h5
      · left; omega
      · right; exact h5
    · rintro ⟨h1, h2, h3, h4, h5, hw⟩
      refine ⟨⟨by omega, h1, by omega, h3, h4, ?_⟩, hw⟩
      rcases h5 with h5 | h5
      · left; omega
      · right; exact h5
  · unfold ScaleProfile.meaningfulScales meaningfulScalesOf runs
    have hpw := runsAux_none_pairwise
      (slopeOkAt (profileX lg p) (profileY lg p) max_slope min_slope)
      (slopesOf (profileX lg p) (profileY lg p)).length 0
    exact List.Pairwise.imp (fun hab => by omega)
      (List.Pairwise.sublist (List.filter_sublist _) hpw)

end DGtal

namespace DGtal

theorem getD_map_lt {α β : Type} (f : α → β) (l : List α) (i : ℕ) (d : α) (e : β)
    (h : i < l.length) : (l.map f).getD i e = f (l.getD i d) := by
  induction l generalizing i with
  | nil => simp at h
  | cons x t ih =>
    cases i with
    | zero => simp
    | succ i =>
      simp only [List.map_cons, List.getD_cons_succ]
      exact ih i (by simpa using h)

theorem getD_append_len {α : Type} (l l' : List α) (i : ℕ) (d : α) :
    (l ++ l').getD (l.length + i) d = l'.getD i d := by
  induction l with
  | nil => simp
  | cons x t ih =>
    rw [List.cons_append, List.length_cons, Nat.add_right_comm, List.getD_cons_succ]
    exact ih

theorem getD_mem_of_lt {α : Type} (l : List α) (i : ℕ) (d : α) (h : i < l.length) :
    l.getD i d ∈ l := by
  induction l generalizing i with
  | nil => simp at h
  | cons x t ih =>
    cases i with
    | zero => simp
    | succ i =>
      simp only [List.getD_cons_succ]
      exact List.mem_cons_of_mem x (ih i (by simpa using h))

theorem getD_set_self {α : Type} (l : List α) (i : ℕ) (a d : α) (h : i < l.length) :
    (l.set i a).getD i d = a := by
  induction l generalizing i with
  | nil => simp at h
  | cons x t ih =>
    cases i with
    | zero => simp
    | succ i =>
      simp only [List.set_cons_succ, List.getD_cons_succ]
      exact ih i (by simpa using h)

theorem getD_set_ne {α : Type} (l : List α) (i j : ℕ) (a d : α) (h : j ≠ i) :
    (l.set i a).getD j d = l.getD j d := by
  induction l generalizing i j with
  | nil => simp
  | cons x t ih =>
    cases i with
    | zero =>
      cases j with
      | zero => exact absurd rfl h
      | succ j => simp
    | succ i =>
      cases j with
      | zero => simp
      | succ j =>
        simp only [List.set_cons_succ, List.getD_cons_succ]
        exact ih i j (by omega)

theorem slopesOf_length (x y : List ℚ) : (slopesOf x y).length = x.length - 1 := by
  simp [slopesOf]

theorem profileX_length (lg : ℚ → ℚ) (p : ScaleProfile) :
    (profileX lg p).length = p.scales.length := by
  simp [profileX]

theorem profileY_length (lg : ℚ → ℚ) (p : ScaleProfile) :
    (profileY lg p).length = p.stats.length := by
  simp [profileY]

theorem toUint_den_one (s : ℚ) (hden : s.den = 1) (hpos : 1 ≤ s) :
    (toUint s : ℚ) = s ∧ 1 ≤ toUint s := by
  have h := Rat.num_div_den s
  rw [hden] at h
  push_cast at h
  rw [div_one] at h
  have hn1 : (1 : ℚ) ≤ (s.num : ℚ) := by rw [h]; exact hpos
  have hn1' : 1 ≤ s.num := by exact_mod_cast hn1
  have hfl : Int.floor s = s.num := by
    conv_lhs => rw [← h]
    exact Int.floor_intCast _
  unfold toUint
  rw [hfl]
  constructor
  · have hnn : (0 : ℤ) ≤ s.num := by omega
    rw [← Int.toNat_of_nonneg hnn] at h
    exact_mod_cast h
  · omega

end DGtal

namespace DGtal

theorem msPfrac_eval : Pfrac.meaningfulScales lgId 1 (-(1/5)) (-(10^10)) = [(0, 0)] := by
  norm_num [ScaleProfile.meaningfulScales, meaningfulScalesOf, runs, runsAux, leadLen,
    slopeOkAt, slopesOf, slopeOk, profileX, profileY, aggregate, Statistic.mean,
    Statistic.add, Statistic.empty, oneStat, Pfrac, lgId, List.range_succ]

theorem nlPfrac_eval : Pfrac.noiseLevel lgId 1 (-(1/5)) (-(10^10)) = 0 := by
  unfold ScaleProfile.noiseLevel
  rw [msPfrac_eval]
  have hfl : Int.floor ((1 : ℚ)/2) = 0 := by
    rw [Int.floor_eq_iff]
    norm_num
  norm_num [toUint, Pfrac, hfl]

end DGtal

namespace DGtal

theorem msPunit_eval : Punit.meaningfulScales lgId 1 (-(1/5)) (-(10^10)) = [(0, 0)] := by
  norm_num [ScaleProfile.meaningfulScales, meaningfulScalesOf, runs, runsAux, leadLen,
    slopeOkAt, slopesOf, slopeOk, profileX, profileY, aggregate, Statistic.mean,
    Statistic.add, Statistic.empty, oneStat, Punit, lgId, List.range_succ]

theorem msPint_eval : Pint.meaningfulScales lgId 1 (-(1/5)) (-(10^10)) = [(0, 0)] := by
  norm_num [ScaleProfile.meaningfulScales, meaningfulScalesOf, runs, runsAux, leadLen,
    slopeOkAt, slopesOf, slopeOk, profileX, profileY, aggregate, Statistic.mean,
    Statistic.add, Statistic.empty, oneStat, Pint, lgId, List.range_succ]

theorem msPhalf_eval : Phalf.meaningfulScales lgId 1 (-(1/5)) (-(10^10)) = [(0, 0)] := by
  norm_num [ScaleProfile.meaningfulScales, meaningfulScalesOf, runs, runsAux, leadLen,
    slopeOkAt, slopesOf, slopeOk, profileX, profileY, aggregate, Statistic.mean,
    Statistic.add, Statistic.empty, oneStat, Phalf, lgId, List.range_succ]

theorem nlPint_eval : Pint.noiseLevel lgId 1 (-(1/5)) (-(10^10)) = 1 := by
  unfold ScaleProfile.noiseLevel
  rw [msPint_eval]
  have hfl : Int.floor ((3 : ℚ)/2) = 1 := by
    rw [Int.floor_eq_iff]
    norm_num
  norm_num [toUint, Pint, hfl]

theorem nlPhalf_eval : Phalf.noiseLevel lgId 1 (-(1/5)) (-(10^10)) = 0 := by
  unfold ScaleProfile.noiseLevel
  rw [msPhalf_eval]
  have hfl : Int.floor ((3 : ℚ)/4) = 0 := by
    rw [Int.floor_eq_iff]
    norm_num
  norm_num [toUint, Phalf, hfl]

end DGtal

namespace DGtal

/-- C1 counterexample: on the concrete valid profile `Pfrac`, whose first
meaningful interval starts at the non-integral scale 1/2, `noiseLevel`
returns `0` although `meaningfulScales` is non-empty, and the returned
value is not present in the scales sequence — refuting both the
"returns 0 exactly when the interval list is empty" part and the
"returns a value present in the original scales sequence" part of the
claim. -/
theorem noiseLevel_not_scale_value_cex :
    Pfrac.WellFormed ∧
    Pfrac.meaningfulScales lgId 1 (-(1/5)) (-(10^10)) ≠ [] ∧
    Pfrac.noiseLevel lgId 1 (-(1/5)) (-(10^10)) = 0 ∧
    ((Pfrac.noiseLevel lgId 1 (-(1/5)) (-(10^10)) : ℚ) ∉ Pfrac.scales) := by
  refine ⟨by decide, ?_, nlPfrac_eval, ?_⟩
  · rw [msPfrac_eval]
    simp
  · rw [nlPfrac_eval]
    norm_num [Pfrac]

/-- C1 (amended): `noiseLevel` returns `0` when `meaningfulScales` is
empty; otherwise it returns the scale value at the start index of the
first meaningful interval truncated to its declared `uint` return type.
When every scale is an integer at least 1 (as with the canonical
`1, 2, ..., n` initialization) the truncation is the identity, so
`noiseLevel` returns `0` exactly when the interval list is empty and
otherwise returns the scale value at the start index of the first
interval, a value present in the original scales sequence. -/
theorem noiseLevel_amended (lg : ℚ → ℚ) (p : ScaleProfile)
    (min_width : ℕ) (max_slope min_slope : ℚ)
    (hint : ∀ s ∈ p.scales, s.den = 1 ∧ 1 ≤ s) :
    (p.noiseLevel lg min_width max_slope min_slope = 0 ↔
      p.meaningfulScales lg min_width max_slope min_slope = []) ∧
    (∀ a b t, p.meaningfulScales lg min_width max_slope min_slope = (a, b) :: t →
      (p.noiseLevel lg min_width max_slope min_slope : ℚ) = p.scales.getD a 0 ∧
      (p.noiseLevel lg min_width max_slope min_slope : ℚ) ∈ p.scales) := by
  have key : ∀ a b t, p.meaningfulScales lg min_width max_slope min_slope = (a, b) :: t →
      p.noiseLevel lg min_width max_slope min_slope = toUint (p.scales.getD a 0) ∧
      a < p.scales.length := by
    intro a b t hcons
    constructor
    · unfold ScaleProfile.noiseLevel
      rw [hcons]
    · have hm : (a, b) ∈ p.meaningfulScales lg min_width max_slope min_slope := by
        rw [hcons]
        exact List.mem_cons_self _ _
      unfold ScaleProfile.meaningfulScales meaningfulScalesOf runs at hm
      rw [List.mem_filter] at hm
      obtain ⟨hm, -⟩ := hm
      obtain ⟨-, hab, hbn, -, -, -⟩ := (runsAux_none_mem _ _ _ a b).mp hm
      have hx : (slopesOf (profileX lg p) (profileY lg p)).length
          = p.scales.length - 1 := by
        rw [slopesOf_length, profileX_length]
      omega
  constructor
  · constructor
    · intro h0
      by_cases he : p.meaningfulScales lg min_width max_slope min_slope = []
      · exact he
      · exfalso
        obtain ⟨⟨a, b⟩, t, hcons⟩ := List.exists_cons_of_ne_nil he
        obtain ⟨hnl, halt⟩ := key a b t hcons
        obtain ⟨hden, hpos⟩ := hint (p.scales.getD a 0) (getD_mem_of_lt _ _ _ halt)
        obtain ⟨-, h1⟩ := toUint_den_one _ hden hpos
        omega
    · intro he
      unfold ScaleProfile.noiseLevel
      rw [he]
  · intro a b t hcons
    obtain ⟨hnl, halt⟩ := key a b t hcons
    obtain ⟨hden, hpos⟩ := hint (p.scales.getD a 0) (getD_mem_of_lt _ _ _ halt)
    obtain ⟨hcast, -⟩ := toUint_den_one _ hden hpos
    rw [hnl, hcast]
    exact ⟨rfl, getD_mem_of_lt _ _ _ halt⟩

/-- C1 witness: the amended statement instantiated on the concrete
integer-scale profile `Punit`, whose hypotheses are discharged by
computation. -/
theorem noiseLevel_amended_witness :
    (∀ s ∈ Punit.scales, s.den = 1 ∧ 1 ≤ s) ∧
    (Punit.noiseLevel lgId 1 (-(1/5)) (-(10^10)) = 0 ↔
      Punit.meaningfulScales lgId 1 (-(1/5)) (-(10^10)) = []) := by
  have hint : ∀ s ∈ Punit.scales, s.den = 1 ∧ 1 ≤ s := by
    intro s hs
    simp only [Punit, List.mem_cons, List.not_mem_nil, or_false] at hs
    rcases hs with h | h
    · norm_num [h]
    · norm_num [h]
  exact ⟨hint, (noiseLevel_amended lgId Punit 1 (-(1/5)) (-(10^10)) hint).1⟩

end DGtal

namespace DGtal

theorem lbfilterPint_eval :
    (Pint.meaningfulScales lgId 1 (-(1/5)) (-(10^10))).filter
      (floorOkInterval lgId (profileX lgId Pint) (profileY lgId Pint) (-(10)) 0)
      = [(0, 0)] := by
  rw [msPint_eval]
  norm_num [floorOkInterval, profileX, profileY, aggregate, Statistic.mean, Statistic.add,
    Statistic.empty, oneStat, Pint, lgId, List.range_succ, List.filter]

/-- C10: `noiseLevel` and `lowerBoundedNoiseLevel` are declared with
return type `uint` although scales are stored as floating-point values:
whenever a first qualifying interval exists, the returned noise level is
the scale value at its start truncated to an unsigned integer, and the
"none found" sentinel `0` is indistinguishable from a scale that truncates
to `0`, as the concrete profile `Phalf` (first meaningful scale 3/4,
non-empty interval list, returned level 0) shows. -/
theorem noiseLevel_truncation (lg : ℚ → ℚ) (p : ScaleProfile)
    (min_width : ℕ) (max_slope min_slope lb1 lbslope : ℚ) :
    (∀ a b t, p.meaningfulScales lg min_width max_slope min_slope = (a, b) :: t →
      p.noiseLevel lg min_width max_slope min_slope
        = (Int.floor (p.scales.getD a 0)).toNat) ∧
    (∀ a b t, (p.meaningfulScales lg min_width max_slope min_slope).filter
        (floorOkInterval lg (profileX lg p) (profileY lg p) lb1 lbslope) = (a, b) :: t →
      p.lowerBoundedNoiseLevel lg min_width max_slope min_slope lb1 lbslope
        = (Int.floor (p.scales.getD a 0)).toNat) ∧
    (Phalf.meaningfulScales lgId 1 (-(1/5)) (-(10^10)) ≠ [] ∧
      Phalf.noiseLevel lgId 1 (-(1/5)) (-(10^10)) = 0) := by
  refine ⟨?_, ?_, ?_, nlPhalf_eval⟩
  · intro a b t hcons
    unfold ScaleProfile.noiseLevel
    rw [hcons]
    rfl
  · intro a b t hcons
    unfold ScaleProfile.lowerBoundedNoiseLevel
    rw [hcons]
    rfl
  · rw [msPhalf_eval]
    simp

/-- C10 witness: the truncation statement instantiated on the concrete
profile `Pint`, whose first meaningful scale is 3/2. -/
theorem noiseLevel_truncation_witness :
    Pint.meaningfulScales lgId 1 (-(1/5)) (-(10^10)) = [(0, 0)] ∧
    Pint.noiseLevel lgId 1 (-(1/5)) (-(10^10)) = (Int.floor ((3 : ℚ)/2)).toNat ∧
    Pint.lowerBoundedNoiseLevel lgId 1 (-(1/5)) (-(10^10)) (-(10)) 0
      = (Int.floor ((3 : ℚ)/2)).toNat := by
  refine ⟨msPint_eval, ?_, ?_⟩
  · have h := (noiseLevel_truncation lgId Pint 1 (-(1/5)) (-(10^10)) (-(10)) 0).1
      0 0 [] msPint_eval
    rw [h]
    norm_num [Pint]
  · have h := (noiseLevel_truncation lgId Pint 1 (-(1/5)) (-(10^10)) (-(10)) 0).2.1
      0 0 [] lbfilterPint_eval
    rw [h]
    norm_num [Pint]

end DGtal

namespace DGtal

/-- C4: for every valid profile with N scales and every pair of
caller-supplied output vectors, `getProfile` appends (does not clear
first) exactly N entries to each vector in scale-index order, with
`outX[i] = lg(scales[i])` and `outY[i] = lg(aggregate(stats[i], mode))`
where the aggregate is the query selected by the configured mode. -/
theorem getProfile_appends (lg : ℚ → ℚ) (p : ScaleProfile) (xs ys : List ℚ)
    (hp : p.valid = true) :
    ∃ X Y, p.getProfileE lg xs ys = .ok (X, Y) ∧
      X.length = xs.length + p.scales.length ∧
      Y.length = ys.length + p.stats.length ∧
      X.take xs.length = xs ∧ Y.take ys.length = ys ∧
      (∀ i, i < p.scales.length →
        X.getD (xs.length + i) 0 = lg (p.scales.getD i 0)) ∧
      (∀ i, i < p.stats.length →
        Y.getD (ys.length + i) 0
          = lg (aggregate p.profileDef (p.stats.getD i statDefault))) := by
  refine ⟨xs ++ profileX lg p, ys ++ profileY lg p, ?_, ?_, ?_, ?_, ?_, ?_, ?_⟩
  · unfold ScaleProfile.getProfileE
    simp [hp]
  · simp [profileX]
  · simp [profileY]
  · exact List.take_left xs _
  · exact List.take_left ys _
  · intro i hi
    rw [getD_append_len]
    exact getD_map_lt lg p.scales i 0 0 hi
  · intro i hi
    rw [getD_append_len]
    exact getD_map_lt _ p.stats i statDefault 0 hi

/-- C4 witness: the append contract instantiated on the concrete profile
`Pfrac` with the non-empty caller buffers `[5]` and `[7]`. -/
theorem getProfile_appends_witness :
    Pfrac.valid = true ∧
    ∃ X Y, Pfrac.getProfileE lgId [5] [7] = .ok (X, Y) ∧
      X.length = ([5] : List ℚ).length + Pfrac.scales.length ∧
      Y.length = ([7] : List ℚ).length + Pfrac.stats.length ∧
      X.take ([5] : List ℚ).length = [5] ∧ Y.take ([7] : List ℚ).length = [7] ∧
      (∀ i, i < Pfrac.scales.length →
        X.getD (([5] : List ℚ).length + i) 0 = lgId (Pfrac.scales.getD i 0)) ∧
      (∀ i, i < Pfrac.stats.length →
        Y.getD (([7] : List ℚ).length + i) 0
          = lgId (aggregate Pfrac.profileDef (Pfrac.stats.getD i statDefault))) :=
  ⟨by decide, getProfile_appends lgId Pfrac [5] [7] (by decide)⟩

/-- C5: `lowerBoundedNoiseLevel` behaves identically to `noiseLevel`
except that a candidate meaningful interval is rejected unless every
profile value within it lies above the power-law floor; among the
surviving intervals the first by start index is selected, `0` is returned
when none survive, and when every interval survives the result coincides
with `noiseLevel`. -/
theorem lowerBoundedNoiseLevel_spec (lg : ℚ → ℚ) (p : ScaleProfile)
    (min_width : ℕ) (max_slope min_slope lb1 lbslope : ℚ) :
    ((p.meaningfulScales lg min_width max_slope min_slope).filter
        (floorOkInterval lg (profileX lg p) (profileY lg p) lb1 lbslope) = [] →
      p.lowerBoundedNoiseLevel lg min_width max_slope min_slope lb1 lbslope = 0) ∧
    (∀ a b t, (p.meaningfulScales lg min_width max_slope min_slope).filter
        (floorOkInterval lg (profileX lg p) (profileY lg p) lb1 lbslope) = (a, b) :: t →
      ((a, b) ∈ p.meaningfulScales lg min_width max_slope min_slope ∧
       floorOkInterval lg (profileX lg p) (profileY lg p) lb1 lbslope (a, b) = true ∧
       (∀ u v, (u, v) ∈ p.meaningfulScales lg min_width max_slope min_slope →
          floorOkInterval lg (profileX lg p) (profileY lg p) lb1 lbslope (u, v) = true →
          a ≤ u) ∧
       p.lowerBoundedNoiseLevel lg min_width max_slope min_slope lb1 lbslope
         = toUint (p.scales.getD a 0))) ∧
    ((∀ ab ∈ p.meaningfulScales lg min_width max_slope min_slope,
        floorOkInterval lg (profileX lg p) (profileY lg p) lb1 lbslope ab = true) →
      p.lowerBoundedNoiseLevel lg min_width max_slope min_slope lb1 lbslope
        = p.noiseLevel lg min_width max_slope min_slope) := by
  refine ⟨?_, ?_, ?_⟩
  · intro hnil
    unfold ScaleProfile.lowerBoundedNoiseLevel
    rw [hnil]
  · intro a b t hcons
    have hhd : (a, b) ∈ (p.meaningfulScales lg min_width max_slope min_slope).filter
        (floorOkInterval lg (profileX lg p) (profileY lg p) lb1 lbslope) := by
      rw [hcons]
      exact List.mem_cons_self _ _
    rw [List.mem_filter] at hhd
    obtain ⟨hms, hfl⟩ := hhd
    have hab : a ≤ b := by
      have hm := hms
      unfold ScaleProfile.meaningfulScales meaningfulScalesOf runs at hm
      rw [List.mem_filter] at hm
      obtain ⟨hm, -⟩ := hm
      obtain ⟨-, h1, -, -, -, -⟩ := (runsAux_none_mem _ _ _ a b).mp hm
      exact h1
    have hpw : List.Pairwise (fun u v : ℕ × ℕ => u.2 + 1 < v.1)
        ((p.meaningfulScales lg min_width max_slope min_slope).filter
          (floorOkInterval lg (profileX lg p) (profileY lg p) lb1 lbslope)) := by
      unfold ScaleProfile.meaningfulScales meaningfulScalesOf runs
      exact List.Pairwise.sublist (List.filter_sublist _)
        (List.Pairwise.sublist (List.filter_sublist _)
          (runsAux_none_pairwise _ _ 0))
    refine ⟨hms, hfl, ?_, ?_⟩
    · intro u v humem hufl
      have huf : (u, v) ∈ (p.meaningfulScales lg min_width max_slope min_slope).filter
          (floorOkInterval lg (profileX lg p) (profileY lg p) lb1 lbslope) :=
        List.mem_filter.mpr ⟨humem, hufl⟩
      rw [hcons] at huf hpw
      rcases List.mem_cons.mp huf with he | ht
      · have : u = a := by
          have := congrArg Prod.fst he
          simpa using this
        omega
      · rw [List.pairwise_cons] at hpw
        have := hpw.1 (u, v) ht
        simp only at this
        omega
    · unfold ScaleProfile.lowerBoundedNoiseLevel
      rw [hcons]
  · intro hall
    have hfeq : (p.meaningfulScales lg min_width max_slope min_slope).filter
        (floorOkInterval lg (profileX lg p) (profileY lg p) lb1 lbslope)
        = p.meaningfulScales lg min_width max_slope min_slope :=
      List.filter_eq_self.mpr hall
    unfold ScaleProfile.lowerBoundedNoiseLevel ScaleProfile.noiseLevel
    rw [hfeq]

/-- C5 witness: the lower-bounded noise level on the concrete profile
`Pint`, with a floor low enough that the single meaningful interval
survives. -/
theorem lowerBoundedNoiseLevel_spec_witness :
    (Pint.meaningfulScales lgId 1 (-(1/5)) (-(10^10))).filter
      (floorOkInterval lgId (profileX lgId Pint) (profileY lgId Pint) (-(10)) 0)
      = [(0, 0)] ∧
    Pint.lowerBoundedNoiseLevel lgId 1 (-(1/5)) (-(10^10)) (-(10)) 0
      = toUint (Pint.scales.getD 0 0) :=
  ⟨lbfilterPint_eval,
    ((lowerBoundedNoiseLevel_spec lgId Pint 1 (-(1/5)) (-(10^10)) (-(10)) 0).2.1
      0 0 [] lbfilterPint_eval).2.2.2⟩

end DGtal

namespace DGtal

/-- C6: serializing and then deserializing yields a profile with an
identical scales sequence and identical accumulator contents, so the
per-scale aggregate outputs are identical for every mode to those of the
original (the header's `serialize` persists exactly `m_scales` and
`m_stats`). -/
theorem serialize_roundtrip (p q : ScaleProfile) :
    (deserializeBlob q (serializeBlob p)).scales = p.scales ∧
    (deserializeBlob q (serializeBlob p)).stats = p.stats ∧
    ∀ (m : ProfileComputingType) (i : ℕ),
      aggregate m ((deserializeBlob q (serializeBlob p)).stats.getD i statDefault)
        = aggregate m (p.stats.getD i statDefault) :=
  ⟨rfl, rfl, fun _ _ => rfl⟩

theorem applyOp_aligned (p : ScaleProfile) (op : Op)
    (hp : p.scales.length = p.stats.length) :
    (applyOp p op).scales.length = (applyOp p op).stats.length := by
  cases op with
  | initSeq l b =>
    by_cases h : l.isEmpty
    · simp [applyOp, recover, ScaleProfile.initScalesE, h, hp]
    · simp [applyOp, recover, ScaleProfile.initScalesE, h]
  | initNat n b =>
    by_cases h : (scaleSeq n).isEmpty
    · simp [applyOp, recover, ScaleProfile.initNatE, ScaleProfile.initScalesE, h, hp]
    · simp [applyOp, recover, ScaleProfile.initNatE, ScaleProfile.initScalesE, h]
  | addValue i v =>
    by_cases h1 : p.valid = false
    · simp [applyOp, recover, ScaleProfile.addValueE, h1, hp]
    · by_cases h2 : p.scales.length ≤ i
      · simp [applyOp, recover, ScaleProfile.addValueE, h1, hp,
          show p.stats.length ≤ i from by omega]
      · simp [applyOp, recover, ScaleProfile.addValueE, h1, hp,
          show ¬p.stats.length ≤ i from by omega]
  | addStat i t =>
    by_cases h1 : p.valid = false
    · simp [applyOp, recover, ScaleProfile.addStatisticE, h1, hp]
    · by_cases h2 : p.scales.length ≤ i
      · simp [applyOp, recover, ScaleProfile.addStatisticE, h1, hp,
          show p.stats.length ≤ i from by omega]
      · simp [applyOp, recover, ScaleProfile.addStatisticE, h1, hp,
          show ¬p.stats.length ≤ i from by omega]
  | stopSaving => simp [applyOp, ScaleProfile.stopStatsSaving, hp]
  | clearOp => simp [applyOp, ScaleProfile.clear]
  | setDef m => simp [applyOp, ScaleProfile.setProfileDef, hp]

theorem runOps_aligned (ops : List Op) : ∀ p : ScaleProfile,
    p.scales.length = p.stats.length →
    (runOps p ops).scales.length = (runOps p ops).stats.length := by
  induction ops with
  | nil => intro p hp; simpa [runOps] using hp
  | cons op t ih =>
    intro p hp
    have h1 := applyOp_aligned p op hp
    simpa [runOps] using ih (applyOp p op) h1

/-- C7: for every N ≥ 1, `init` with N scales makes the object valid with
scale-sequence length N, and in every state reachable through the public
API from a freshly constructed object the invariant
`len(scales) = len(stats)` holds. -/
theorem init_valid_and_aligned :
    (∀ (p : ScaleProfile) (n : ℕ) (b : Bool), 1 ≤ n →
      (applyOp p (Op.initNat n b)).isValid = true ∧
      (applyOp p (Op.initNat n b)).scales.length = n) ∧
    (∀ (m : ProfileComputingType) (ops : List Op),
      (runOps (ScaleProfile.mkEmpty m) ops).scales.length
        = (runOps (ScaleProfile.mkEmpty m) ops).stats.length) := by
  constructor
  · intro p n b hn
    have hne : (scaleSeq n).isEmpty = false := by
      cases hsl : scaleSeq n with
      | nil =>
        exfalso
        have hlen := congrArg List.length hsl
        simp [scaleSeq] at hlen
        omega
      | cons a t => rfl
    constructor
    · simp [applyOp, recover, ScaleProfile.initNatE, ScaleProfile.initScalesE, hne,
        ScaleProfile.isValid, show n ≠ 0 from by omega]
    · simp [applyOp, recover, ScaleProfile.initNatE, ScaleProfile.initScalesE, hne, scaleSeq,
        show n ≠ 0 from by omega]
  · intro m ops
    exact runOps_aligned ops (ScaleProfile.mkEmpty m) rfl

/-- C7 witness: initializing a fresh profile with 3 scales. -/
theorem init_valid_and_aligned_witness :
    1 ≤ 3 ∧
    (applyOp (ScaleProfile.mkEmpty .MEAN) (Op.initNat 3 false)).isValid = true ∧
    (applyOp (ScaleProfile.mkEmpty .MEAN) (Op.initNat 3 false)).scales.length = 3 :=
  ⟨by decide, init_valid_and_aligned.1 (ScaleProfile.mkEmpty .MEAN) 3 false (by decide)⟩

/-- C8: `addValue` and `addStatistic` fail with `IndexOutOfRange` for
every index at or beyond N on a valid object; every ingestion operation
and every query operation — `getProfile`, `meaningfulScales`,
`getSlopeFromMeaningfulScales`, `noiseLevel` and
`lowerBoundedNoiseLevel` — fails with `InvalidState` on an uninitialized
or cleared object; and when the preconditions hold `addValue` routes the
value into `stats[idx].add(value)` and leaves every other accumulator
unchanged. -/
theorem addValue_contract :
    (∀ (p : ScaleProfile) (idx : ℕ) (v : ℚ), p.valid = true → p.scales.length ≤ idx →
      p.addValueE idx v = .error .IndexOutOfRange) ∧
    (∀ (p : ScaleProfile) (idx : ℕ) (t : Statistic), p.valid = true →
      p.scales.length ≤ idx → p.addStatisticE idx t = .error .IndexOutOfRange) ∧
    (∀ (p : ScaleProfile) (idx : ℕ) (v : ℚ), p.valid = false →
      p.addValueE idx v = .error .InvalidState) ∧
    (∀ (p : ScaleProfile) (idx : ℕ) (t : Statistic), p.valid = false →
      p.addStatisticE idx t = .error .InvalidState) ∧
    (∀ (p : ScaleProfile) (lg : ℚ → ℚ) (xs ys : List ℚ), p.valid = false →
      p.getProfileE lg xs ys = .error .InvalidState) ∧
    (∀ (p : ScaleProfile) (lg : ℚ → ℚ) (min_width : ℕ) (max_slope min_slope : ℚ),
      p.valid = false →
      p.meaningfulScalesE lg min_width max_slope min_slope = .error .InvalidState) ∧
    (∀ (p : ScaleProfile) (lg : ℚ → ℚ) (max_slope min_slope : ℚ) (min_size : ℕ),
      p.valid = false →
      p.getSlopeFromMeaningfulScalesE lg max_slope min_slope min_size
        = .error .InvalidState) ∧
    (∀ (p : ScaleProfile) (lg : ℚ → ℚ) (min_width : ℕ) (max_slope min_slope : ℚ),
      p.valid = false →
      p.noiseLevelE lg min_width max_slope min_slope = .error .InvalidState) ∧
    (∀ (p : ScaleProfile) (lg : ℚ → ℚ) (min_width : ℕ)
        (max_slope min_slope lb1 lbslope : ℚ), p.valid = false →
      p.lowerBoundedNoiseLevelE lg min_width max_slope min_slope lb1 lbslope
        = .error .InvalidState) ∧
    (∀ (p : ScaleProfile) (idx : ℕ) (v : ℚ), p.valid = true →
      idx < p.scales.length → p.scales.length = p.stats.length →
      p.addValueE idx v = .ok { p with
          stats := p.stats.set idx ((p.stats.getD idx statDefault).add v) } ∧
      (p.stats.set idx ((p.stats.getD idx statDefault).add v)).getD idx statDefault
        = (p.stats.getD idx statDefault).add v ∧
      (∀ j, j ≠ idx →
        (p.stats.set idx ((p.stats.getD idx statDefault).add v)).getD j statDefault
          = p.stats.getD j statDefault)) := by
  refine ⟨?_, ?_, ?_, ?_, ?_, ?_, ?_, ?_, ?_, ?_⟩
  · intro p idx v hval hidx
    simp [ScaleProfile.addValueE, hval, hidx]
  · intro p idx t hval hidx
    simp [ScaleProfile.addStatisticE, hval, hidx]
  · intro p idx v hval
    simp [ScaleProfile.addValueE, hval]
  · intro p idx t hval
    simp [ScaleProfile.addStatisticE, hval]
  · intro p lg xs ys hval
    simp [ScaleProfile.getProfileE, hval]
  · intro p lg min_width max_slope min_slope hval
    simp [ScaleProfile.meaningfulScalesE, hval]
  · intro p lg max_slope min_slope min_size hval
    simp [ScaleProfile.getSlopeFromMeaningfulScalesE, hval]
  · intro p lg min_width max_slope min_slope hval
    simp [ScaleProfile.noiseLevelE, hval]
  · intro p lg min_width max_slope min_slope lb1 lbslope hval
    simp [ScaleProfile.lowerBoundedNoiseLevelE, hval]
  · intro p idx v hval hidx halign
    refine ⟨?_, ?_, ?_⟩
    · simp [ScaleProfile.addValueE, hval, show ¬p.scales.length ≤ idx from by omega]
    · exact getD_set_self p.stats idx _ statDefault (by omega)
    · intro j hj
      exact getD_set_ne p.stats idx j _ statDefault hj

/-- C8 witness: the contract instantiated on concrete profiles — an
out-of-range index on the valid `Pfrac`, ingestion on a fresh (invalid)
object, the `noiseLevel` query on a cleared object, and an in-range
`addValue` on `Pfrac`. -/
theorem addValue_contract_witness :
    (Pfrac.valid = true ∧ Pfrac.scales.length ≤ 5 ∧
      Pfrac.addValueE 5 2 = .error .IndexOutOfRange) ∧
    ((ScaleProfile.mkEmpty .MEAN).valid = false ∧
      (ScaleProfile.mkEmpty .MEAN).addValueE 0 1 = .error .InvalidState) ∧
    (Pfrac.clear.valid = false ∧
      Pfrac.clear.noiseLevelE lgId 1 (-(1/5)) (-(10^10)) = .error .InvalidState) ∧
    Pfrac.addValueE 0 2 = .ok { Pfrac with
      stats := Pfrac.stats.set 0 ((Pfrac.stats.getD 0 statDefault).add 2) } :=
  ⟨⟨by decide, by decide, addValue_contract.1 Pfrac 5 2 (by decide) (by decide)⟩,
    ⟨by decide, addValue_contract.2.2.1 (ScaleProfile.mkEmpty .MEAN) 0 1 (by decide)⟩,
    ⟨by decide, addValue_contract.2.2.2.2.2.2.2.1 Pfrac.clear lgId 1 (-(1/5)) (-(10^10))
      (by decide)⟩,
    (addValue_contract.2.2.2.2.2.2.2.2.2 Pfrac 0 2 (by decide) (by decide) (by decide)).1⟩

end DGtal

namespace DGtal

theorem terminate_median (s : Statistic) :
    (Statistic.terminate s).median = s.median := by
  by_cases h : s.retainRaw
  · simp [Statistic.terminate, Statistic.median, h]
  · simp [Statistic.terminate, Statistic.median, h]

theorem add_median_of_not_retain (s : Statistic) (v : ℚ) (h : s.retainRaw = false) :
    (s.add v).median = s.median := by
  simp [Statistic.add, Statistic.median, h]

theorem terminate_retainRaw (s : Statistic) :
    (Statistic.terminate s).retainRaw = false := by
  by_cases h : s.retainRaw
  · simp [Statistic.terminate, h]
  · simp [Statistic.terminate, h]

theorem terminate_idem (s : Statistic) :
    Statistic.terminate (Statistic.terminate s) = Statistic.terminate s := by
  by_cases h : s.retainRaw
  · simp [Statistic.terminate, h]
  · simp [Statistic.terminate, h]

theorem getD_map_terminate (l : List Statistic) (i : ℕ) :
    (l.map Statistic.terminate).getD i statDefault
      = Statistic.terminate (l.getD i statDefault) := by
  by_cases h : i < l.length
  · exact getD_map_lt _ l i statDefault statDefault h
  · rw [List.getD_eq_default, List.getD_eq_default]
    · rfl
    · omega
    · simpa using by omega

/-- C9: after `stopStatsSaving` every accumulator's `median()` equals the
median it had just before the call — for a retaining accumulator, the
median computed from its raw samples; the cached value is returned by
subsequent `median()` calls even if more data is later added; and a second
`stopStatsSaving` call is a no-op. -/
theorem stopStatsSaving_median (p : ScaleProfile) :
    (∀ i : ℕ, ((p.stopStatsSaving).stats.getD i statDefault).median
        = (p.stats.getD i statDefault).median) ∧
    (∀ i : ℕ, (p.stats.getD i statDefault).retainRaw = true →
      ((p.stopStatsSaving).stats.getD i statDefault).median
        = medianOfList (p.stats.getD i statDefault).samples) ∧
    (∀ (i : ℕ) (v : ℚ),
      (((p.stopStatsSaving).stats.getD i statDefault).add v).median
        = ((p.stopStatsSaving).stats.getD i statDefault).median) ∧
    p.stopStatsSaving.stopStatsSaving = p.stopStatsSaving := by
  have hg : ∀ i, (p.stopStatsSaving).stats.getD i statDefault
      = Statistic.terminate (p.stats.getD i statDefault) := by
    intro i
    show (p.stats.map Statistic.terminate).getD i statDefault = _
    exact getD_map_terminate p.stats i
  refine ⟨?_, ?_, ?_, ?_⟩
  · intro i
    rw [hg]
    exact terminate_median _
  · intro i h
    rw [hg, terminate_median]
    unfold Statistic.median
    rw [h]
    simp
  · intro i v
    rw [hg]
    exact add_median_of_not_retain _ v (terminate_retainRaw _)
  · have hmm : (p.stats.map Statistic.terminate).map Statistic.terminate
        = p.stats.map Statistic.terminate := by
      rw [List.map_map]
      exact List.map_congr_left (fun a _ => terminate_idem a)
    simp [ScaleProfile.stopStatsSaving, hmm]

/-- C9 witness: the freeze contract on the concrete retaining profile
`Pstore`. -/
theorem stopStatsSaving_median_witness :
    (Pstore.stats.getD 0 statDefault).retainRaw = true ∧
    ((Pstore.stopStatsSaving).stats.getD 0 statDefault).median
      = medianOfList (Pstore.stats.getD 0 statDefault).samples :=
  ⟨by decide, (stopStatsSaving_median Pstore).2.1 0 (by decide)⟩

end DGtal

namespace DGtal

theorem sum_map_shift (l : List (ℚ × ℚ)) (a b : ℚ) :
    (l.map (fun q => (q.1 - a) * (q.2 - b))).sum
      = (l.map (fun q => q.1 * q.2)).sum - a * (l.map Prod.snd).sum
        - b * (l.map Prod.fst).sum + (l.length : ℚ) * a * b := by
  induction l with
  | nil => simp
  | cons x t ih =>
    simp only [List.map_cons, List.sum_cons, List.length_cons, ih]
    push_cast
    ring

theorem sum_map_shift_sq (l : List (ℚ × ℚ)) (a : ℚ) :
    (l.map (fun q => (q.1 - a) * (q.1 - a))).sum
      = (l.map (fun q => q.1 * q.1)).sum - 2 * a * (l.map Prod.fst).sum
        + (l.length : ℚ) * a * a := by
  induction l with
  | nil => simp
  | cons x t ih =>
    simp only [List.map_cons, List.sum_cons, List.length_cons, ih]
    push_cast
    ring

theorem sum_map_affine (l : List (ℚ × ℚ)) (c s : ℚ) :
    (l.map (fun q => c + s * q.1)).sum
      = (l.length : ℚ) * c + s * (l.map Prod.fst).sum := by
  induction l with
  | nil => simp
  | cons x t ih =>
    simp only [List.map_cons, List.sum_cons, List.length_cons, ih]
    push_cast
    ring

theorem olsSlope_eq_cov (pts : List (ℚ × ℚ)) (h : pts ≠ []) :
    olsSlope pts = olsSlopeCov pts := by
  have hn : (pts.length : ℚ) ≠ 0 := by
    have h0 : 0 < pts.length := List.length_pos.mpr h
    exact_mod_cast Nat.pos_iff_ne_zero.mp h0
  unfold olsSlope olsSlopeCov
  rw [sum_map_shift, sum_map_shift_sq]
  set n := (pts.length : ℚ) with hn_def
  set sx := (pts.map Prod.fst).sum with hsx
  set sy := (pts.map Prod.snd).sum with hsy
  set sxy := (pts.map (fun q => q.1 * q.2)).sum with hsxy
  set sxx := (pts.map (fun q => q.1 * q.1)).sum with hsxx
  have e1 : sxy - sx / n * sy - sy / n * sx + n * (sx / n) * (sy / n)
      = (n * sxy - sx * sy) / n := by
    field_simp
    ring
  have e2 : sxx - 2 * (sx / n) * sx + n * (sx / n) * (sx / n)
      = (n * sxx - sx * sx) / n := by
    field_simp
    ring
  rw [e1, e2]
  rcases eq_or_ne (n * sxx - sx * sx) 0 with hB | hB
  · rw [hB]
    simp
  · field_simp

theorem sum_sq_eq_zero (l : List ℚ) (h : (l.map (fun x => x * x)).sum = 0) :
    ∀ x ∈ l, x = 0 := by
  induction l with
  | nil => simp
  | cons a t ih =>
    simp only [List.map_cons, List.sum_cons] at h
    have ha : 0 ≤ a * a := mul_self_nonneg a
    have ht : 0 ≤ (t.map (fun x => x * x)).sum := by
      apply List.sum_nonneg
      intro x hx
      simp only [List.mem_map] at hx
      obtain ⟨y, -, rfl⟩ := hx
      exact mul_self_nonneg y
    intro x hx
    rcases List.mem_cons.mp hx with rfl | hxt
    · exact mul_self_eq_zero.mp (by linarith)
    · exact ih (by linarith) x hxt

theorem olsSlopeCov_affine (pts : List (ℚ × ℚ)) (c s : ℚ)
    (haff : ∀ q ∈ pts, q.2 = c + s * q.1)
    (hx : ∃ q ∈ pts, ∃ u ∈ pts, q.1 ≠ u.1) :
    olsSlopeCov pts = s := by
  have hne : pts ≠ [] := by
    rintro rfl
    simp at hx
  have hn : (pts.length : ℚ) ≠ 0 := by
    have h0 : 0 < pts.length := List.length_pos.mpr hne
    exact_mod_cast Nat.pos_iff_ne_zero.mp h0
  unfold olsSlopeCov
  set xb := (pts.map Prod.fst).sum / (pts.length : ℚ) with hxb
  have hyb : (pts.map Prod.snd).sum / (pts.length : ℚ) = c + s * xb := by
    have hmap : pts.map Prod.snd = pts.map (fun q => c + s * q.1) :=
      List.map_congr_left haff
    rw [hmap, sum_map_affine, hxb]
    field_simp
    ring
  rw [hyb]
  have hnum : pts.map (fun q => (q.1 - xb) * (q.2 - (c + s * xb)))
      = pts.map (fun q => s * ((q.1 - xb) * (q.1 - xb))) := by
    apply List.map_congr_left
    intro q hq
    rw [haff q hq]
    ring
  rw [hnum, List.sum_map_mul_left]
  have hden : (pts.map (fun q => (q.1 - xb) * (q.1 - xb))).sum ≠ 0 := by
    intro h0
    have hc : ((pts.map (fun q => q.1 - xb)).map (fun x => x * x)).sum = 0 := by
      simpa [List.map_map, Function.comp] using h0
    have hall := sum_sq_eq_zero _ hc
    obtain ⟨q, hq, u, hu, hqu⟩ := hx
    have h1 : q.1 - xb = 0 := hall _ (List.mem_map_of_mem _ hq)
    have h2 : u.1 - xb = 0 := hall _ (List.mem_map_of_mem _ hu)
    apply hqu
    linarith
  rw [mul_div_assoc, div_self hden, mul_one]

end DGtal

namespace DGtal

/-- C3: `getSlopeFromMeaningfulScales(max_slope, min_slope, min_size)`
returns `(true, s)` where `s` is the ordinary least-squares regression
slope of y on x (the covariance-over-variance quotient, which recovers the
exact slope on affine data) over the profile points of the first
meaningful interval of width at least `min_size` (endpoints inclusive)
when such an interval exists, and otherwise `(false, s')` where `s'` is
the regression slope over all profile points. -/
theorem getSlope_spec (lg : ℚ → ℚ) (p : ScaleProfile)
    (max_slope min_slope : ℚ) (min_size : ℕ) (hp : p.WellFormed) :
    (meaningfulScalesOf (profileX lg p) (profileY lg p) min_size max_slope min_slope = [] →
      p.getSlopeFromMeaningfulScales lg max_slope min_slope min_size
        = (false, olsSlopeCov ((profileX lg p).zip (profileY lg p)))) ∧
    (∀ a b t,
      meaningfulScalesOf (profileX lg p) (profileY lg p) min_size max_slope min_slope
        = (a, b) :: t →
      p.getSlopeFromMeaningfulScales lg max_slope min_slope min_size
        = (true, olsSlopeCov
            ((((profileX lg p).zip (profileY lg p)).drop a).take (b + 2 - a))) ∧
      (∀ c s,
        (∀ q ∈ (((profileX lg p).zip (profileY lg p)).drop a).take (b + 2 - a),
          q.2 = c + s * q.1) →
        (∃ q ∈ (((profileX lg p).zip (profileY lg p)).drop a).take (b + 2 - a),
         ∃ u ∈ (((profileX lg p).zip (profileY lg p)).drop a).take (b + 2 - a),
           q.1 ≠ u.1) →
        p.getSlopeFromMeaningfulScales lg max_slope min_slope min_size = (true, s))) := by
  obtain ⟨-, hlen, hpos⟩ := hp
  have hzlen : ((profileX lg p).zip (profileY lg p)).length = p.scales.length := by
    rw [List.length_zip, profileX_length, profileY_length, hlen]
    omega
  constructor
  · intro hnil
    unfold ScaleProfile.getSlopeFromMeaningfulScales
    rw [hnil]
    have hz : (profileX lg p).zip (profileY lg p) ≠ [] := by
      apply List.ne_nil_of_length_pos
      omega
    rw [olsSlope_eq_cov _ hz]
  · intro a b t hcons
    have hab : a ≤ b ∧ b < (slopesOf (profileX lg p) (profileY lg p)).length := by
      have hm : (a, b) ∈ meaningfulScalesOf (profileX lg p) (profileY lg p)
          min_size max_slope min_slope := by
        rw [hcons]
        exact List.mem_cons_self _ _
      unfold meaningfulScalesOf runs at hm
      rw [List.mem_filter] at hm
      obtain ⟨hm, -⟩ := hm
      obtain ⟨-, h1, h2, -, -, -⟩ := (runsAux_none_mem _ _ _ a b).mp hm
      exact ⟨h1, by omega⟩
    have hslen : (slopesOf (profileX lg p) (profileY lg p)).length
        = p.scales.length - 1 := by
      rw [slopesOf_length, profileX_length]
    have htlen : ((((profileX lg p).zip (profileY lg p)).drop a).take (b + 2 - a)) ≠ [] := by
      apply List.ne_nil_of_length_pos
      rw [List.length_take, List.length_drop, hzlen]
      omega
    have hres : p.getSlopeFromMeaningfulScales lg max_slope min_slope min_size
        = (true, olsSlopeCov
            ((((profileX lg p).zip (profileY lg p)).drop a).take (b + 2 - a))) := by
      unfold ScaleProfile.getSlopeFromMeaningfulScales
      rw [hcons]
      exact congrArg (Prod.mk true) (olsSlope_eq_cov _ htlen)
    refine ⟨hres, ?_⟩
    intro c s haff hx
    rw [hres]
    rw [olsSlopeCov_affine _ c s haff hx]

/-- C3 witness: the regression contract instantiated on the concrete
profile `Pint`, whose single meaningful interval is `(0, 0)`. -/
theorem getSlope_spec_witness :
    Pint.WellFormed ∧
    Pint.getSlopeFromMeaningfulScales lgId (-(1/5)) (-(10^10)) 1
      = (true, olsSlopeCov
          ((((profileX lgId Pint).zip (profileY lgId Pint)).drop 0).take (0 + 2 - 0))) :=
  ⟨by decide,
    ((getSlope_spec lgId Pint (-(1/5)) (-(10^10)) 1 (by decide)).2 0 0 [] msPint_eval).1⟩

end DGtal

namespace DGtal

/-- C2 witness: the maximal-run characterization instantiated on the
concrete profile `Pfrac` at the interval `(0, 0)`. -/
theorem meaningfulScales_maximal_runs_witness :
    ((0, 0) ∈ Pfrac.meaningfulScales lgId 1 (-(1/5)) (-(10^10))) ↔
      (0 ≤ 0 ∧ 0 < (slopesOf (profileX lgId Pfrac) (profileY lgId Pfrac)).length ∧
       (∀ k, 0 ≤ k → k ≤ 0 →
         slopeOkAt (profileX lgId Pfrac) (profileY lgId Pfrac) (-(1/5)) (-(10^10)) k = true) ∧
       (0 = 0 ∨
         slopeOkAt (profileX lgId Pfrac) (profileY lgId Pfrac) (-(1/5)) (-(10^10)) (0 - 1)
           = false) ∧
       (0 + 1 = (slopesOf (profileX lgId Pfrac) (profileY lgId Pfrac)).length ∨
         slopeOkAt (profileX lgId Pfrac) (profileY lgId Pfrac) (-(1/5)) (-(10^10)) (0 + 1)
           = false) ∧
       1 ≤ 0 + 1 - 0) :=
  (meaningfulScales_maximal_runs lgId Pfrac 1 (-(1/5)) (-(10^10))).1 0 0

end DGtal
